import Mathlib

/-!
# Expense tracker (`expense_tracker.cpp`): CSV codec, record store, queries

A shallow embedding of the single-file C++ expense tracker.

* A `std::string` is a list of characters (`Str`).
* A stream (the data file, as read by `ifstream` or written by `ofstream`) is
  the list of characters it holds.
* `double` is a type parameter `α`; the three library operations the program
  applies to it (`std::stod`, `ostream << double`, the literal `0.0`) are the
  fields of `DoubleOps α`.  `stod` returns `none` where the library throws.
* A function in which an exception can escape returns `Option`; `none` is the
  escaping exception.
-/

set_option autoImplicit false

namespace ExpenseTracker

/-! ## Data model -/

/-- A `std::string`: the sequence of its characters (bytes, compared as
unsigned values). -/
abbrev Str := List Char

/-- The `Record` struct (source lines 8-13), with `double` as the parameter `α`. -/
structure Record (α : Type) where
  date : Str
  amount : α
  category : Str
  note : Str
deriving DecidableEq

/-- The library operations on `double` used by the program: `std::stod`
(`none` when it throws), the default `ostream << double` rendering, and `0.0`. -/
structure DoubleOps (α : Type) where
  stod : Str → Option α
  put : α → Str
  zero : α

/-- The header line written by `save_data` and looked for by `load_data`. -/
def HEADER : Str := "date,amount,category,note".toList

/-! ## CSV codec -/

/-- The `for` loop of `split_csv_line` (source lines 21-31) followed by the final
`parts.push_back(cur)` (line 32).  State: `parts`, `cur`, `in_quote`; the last
argument is the part of the line not yet visited. -/
def split_loop : List Str → Str → Bool → Str → List Str
  | parts, cur, _, [] => parts ++ [cur]
  | parts, cur, in_quote, c :: rest =>
    if c = '"' then split_loop parts cur (!in_quote) rest
    else if c = ',' ∧ in_quote = false then split_loop (parts ++ [cur]) [] in_quote rest
    else split_loop parts (cur ++ [c]) in_quote rest

/-- The function `split_csv_line` (source lines 17-34). -/
def split_csv_line (line : Str) : List Str :=
  split_loop [] [] false line

/-- The range-`for` loop of `escape_csv` (source lines 39-42): `out` is the
string built so far. -/
def escape_loop : Str → Str → Str
  | out, [] => out
  | out, c :: rest =>
    if c = '"' then escape_loop (out ++ ['"', '"']) rest
    else escape_loop (out ++ [c]) rest

/-- The function `escape_csv` (source lines 36-45). -/
def escape_csv (s : Str) : Str :=
  if ',' ∉ s ∧ '"' ∉ s then s
  else escape_loop ['"'] s ++ ['"']

/-- The text `save_data` writes for one record before the newline (source line 77). -/
def record_line {α : Type} (ops : DoubleOps α) (r : Record α) : Str :=
  escape_csv r.date ++ [','] ++ ops.put r.amount ++ [','] ++ escape_csv r.category
    ++ [','] ++ escape_csv r.note

/-- What the spec calls doubling every embedded quote: each `"` becomes `""`. -/
def double_quotes (s : Str) : Str :=
  s.flatMap (fun c => if c = '"' then ['"', '"'] else [c])

/-! ## Streams -/

/-- One extraction by `std::getline` from a non-empty stream: the characters
before the first newline, and the stream after that newline (the newline is
consumed and dropped; without a newline the line runs to the end). -/
def read_line : Str → Str × Str
  | [] => ([], [])
  | c :: rest =>
    if c = '\n' then ([], rest)
    else ((c :: (read_line rest).1), (read_line rest).2)

/-- The call `getline(fin, line)`: `none` when it fails (nothing left to
extract), otherwise the line read and the remaining stream. -/
def getline (fin : Str) : Option (Str × Str) :=
  if fin = [] then none else some (read_line fin)

/-- The lines that successive calls of `getline` deliver until one fails
(see `stream_lines_getline`). -/
def stream_lines : Str → List Str
  | [] => []
  | c :: rest =>
    if c = '\n' then [] :: stream_lines rest
    else
      match stream_lines rest with
      | [] => [[c]]
      | l :: ls => (c :: l) :: ls

/-! ## Record store -/

/-- The `while (getline(fin, line))` loop of `load_data` (source lines 62-69),
run over the lines still to be read; `records` is the vector built so far.  The
`catch(...)` turns a failing `stod` into `0.0`. -/
def load_loop {α : Type} (ops : DoubleOps α) : List Str → List (Record α) → List (Record α)
  | [], records => records
  | line :: rest, records =>
    if line.length = 0 then load_loop ops rest records
    else
      let parts := split_csv_line line
      if parts.length < 4 then load_loop ops rest records
      else
        let amount := match ops.stod (parts.getD 1 []) with
          | some a => a
          | none => ops.zero
        load_loop ops rest
          (records ++ [⟨parts.getD 0 [], amount, parts.getD 2 [], parts.getD 3 []⟩])

/-- The function `load_data` (source lines 47-71).  The argument is the content
of the data file, `none` when the file cannot be opened.  The result is `none`
when an exception leaves the function: the `stod` of line 59 is outside any
`try`. -/
def load_data {α : Type} (ops : DoubleOps α) (file : Option Str) : Option (List (Record α)) :=
  match file with
  | none => some []
  | some fin =>
    match stream_lines fin with
    | [] => some []
    | line :: rest =>
      if ¬ HEADER <:+: line then
        let parts := split_csv_line line
        if parts.length ≥ 4 then
          match ops.stod (parts.getD 1 []) with
          | none => none
          | some a =>
            some (load_loop ops rest [⟨parts.getD 0 [], a, parts.getD 2 [], parts.getD 3 []⟩])
        else some (load_loop ops rest [])
      else some (load_loop ops rest [])

/-- The range-`for` loop of `save_data` (source lines 76-78); `fout` is what has
been written so far. -/
def save_loop {α : Type} (ops : DoubleOps α) : Str → List (Record α) → Str
  | fout, [] => fout
  | fout, r :: rest => save_loop ops (fout ++ record_line ops r ++ ['\n']) rest

/-- The function `save_data` (source lines 73-79): the content of the file it
leaves behind (the stream is taken to open and to accept every write). -/
def save_data {α : Type} (ops : DoubleOps α) (records : List (Record α)) : Str :=
  save_loop ops (HEADER ++ ['\n']) records

/-- The record that the loop of `load_data` appends for one line, `none` when
the line is skipped. -/
def parse_line {α : Type} (ops : DoubleOps α) (line : Str) : Option (Record α) :=
  if line = [] ∨ (split_csv_line line).length < 4 then none
  else
    some ⟨(split_csv_line line).getD 0 [], (ops.stod ((split_csv_line line).getD 1 [])).getD ops.zero,
      (split_csv_line line).getD 2 [], (split_csv_line line).getD 3 []⟩

/-! ## A concrete instance of the numeric operations -/

/-- The `isspace` test that `stod` applies to leading characters. -/
def is_space (c : Char) : Bool :=
  c = ' ' ∨ c = '\t' ∨ c = '\n' ∨ c = '\x0b' ∨ c = '\x0c' ∨ c = '\r'

/-- The value of the leading run of decimal digits, continuing from `acc`. -/
def read_digits : Nat → Str → Nat
  | acc, [] => acc
  | acc, c :: rest =>
    if c.isDigit then read_digits (10 * acc + (c.toNat - '0'.toNat)) rest else acc

/-- An unsigned digit string: fails when the text does not start with a digit. -/
def stod_unsigned : Str → Option Nat
  | [] => none
  | c :: rest => if c.isDigit then some (read_digits 0 (c :: rest)) else none

/-- Integer reading of `stod`: leading blanks, an optional sign, then at least
one decimal digit; whatever follows the digits is ignored. -/
def stod_int (s : Str) : Option Int :=
  match s.dropWhile is_space with
  | '-' :: rest => (stod_unsigned rest).map (fun n => - (n : Int))
  | '+' :: rest => (stod_unsigned rest).map (fun n => (n : Int))
  | rest => (stod_unsigned rest).map (fun n => (n : Int))

/-- Decimal rendering of an integer. -/
def put_int (n : Int) : Str :=
  if n < 0 then '-' :: (Nat.toDigits 10 n.natAbs) else Nat.toDigits 10 n.natAbs

/-- Integer-valued amounts, for the concrete examples.  On input it is what
`std::stod` does for texts that, after leading blanks, either start no numeral
or are an optional sign and decimal digits; on output it is what
`ostream << double` prints for integers of magnitude below `10^6`.  Fractions,
exponents, hexadecimal numerals, `inf` and `nan` are outside this instance.
The theorems below that take `ops` as an argument hold for every instance. -/
def intOps : DoubleOps Int where
  stod := stod_int
  put := put_int
  zero := 0

/-! ## Query engine -/

/-- The comparison `a < b` of `std::string`: lexicographic on the characters, a
proper prefix being smaller. -/
def str_lt : Str → Str → Bool
  | [], [] => false
  | [], _ :: _ => true
  | _ :: _, [] => false
  | a :: as, b :: bs => if a < b then true else if b < a then false else str_lt as bs

/-- The loop of `filter_by_date` (source lines 123-127); `out` is the vector
built so far. -/
def filter_by_date_loop {α : Type} (from_ to_ : Str) :
    List (Record α) → List (Record α) → List (Record α)
  | [], out => out
  | r :: rest, out =>
    if from_ ≠ [] ∧ str_lt r.date from_ = true then filter_by_date_loop from_ to_ rest out
    else if to_ ≠ [] ∧ str_lt to_ r.date = true then filter_by_date_loop from_ to_ rest out
    else filter_by_date_loop from_ to_ rest (out ++ [r])

/-- The function `filter_by_date` (source lines 121-129). -/
def filter_by_date {α : Type} (recs : List (Record α)) (from_ to_ : Str) : List (Record α) :=
  filter_by_date_loop from_ to_ recs []

/-- The loop of `filter_by_category` (source line 133). -/
def filter_by_category_loop {α : Type} (cat : Str) :
    List (Record α) → List (Record α) → List (Record α)
  | [], out => out
  | r :: rest, out =>
    if r.category = cat then filter_by_category_loop cat rest (out ++ [r])
    else filter_by_category_loop cat rest out

/-- The function `filter_by_category` (source lines 131-135). -/
def filter_by_category {α : Type} (recs : List (Record α)) (cat : Str) : List (Record α) :=
  filter_by_category_loop cat recs []

/-- The loop of `show_summary` (source lines 139-142) on exact amounts; the
state is `(income, expense)`. -/
def summary_loop : List (Record ℚ) → ℚ × ℚ → ℚ × ℚ
  | [], acc => acc
  | r :: rest, (income, expense) =>
    if r.amount ≥ 0 then summary_loop rest (income + r.amount, expense)
    else summary_loop rest (income, expense + -r.amount)

/-- The three totals `show_summary` prints (source lines 137-147): income,
expense and `income - expense`. -/
def show_summary (records : List (Record ℚ)) : ℚ × ℚ × ℚ :=
  ((summary_loop records (0, 0)).1, (summary_loop records (0, 0)).2,
    (summary_loop records (0, 0)).1 - (summary_loop records (0, 0)).2)

/-! ## Adding and exporting -/

/-- The function `add_record` (source lines 81-110).  The four texts are the
lines read from `cin` at the four prompts, `today` is the text that `snprintf`
builds from `localtime`.  The result is the record vector afterwards and the
file content written by `save_data`, `none` when `save_data` is not called. -/
def add_record {α : Type} (ops : DoubleOps α) (today : Str) (records : List (Record α))
    (s amt category note : Str) : List (Record α) × Option Str :=
  let date := if s = [] then today else s
  match ops.stod amt with
  | none => (records, none)
  | some amount =>
    let category := if category = [] then "Uncategorized".toList else category
    let records := records ++ [⟨date, amount, category, note⟩]
    (records, some (save_data ops records))

/-- The range-`for` loop of `export_to_csv` (source lines 173-175); `fout` is
what has been written so far. -/
def export_loop {α : Type} (ops : DoubleOps α) : Str → List (Record α) → Str
  | fout, [] => fout
  | fout, r :: rest =>
    export_loop ops
      (fout ++ escape_csv r.date ++ [','] ++ ops.put r.amount ++ [','] ++ escape_csv r.category
        ++ [','] ++ escape_csv r.note ++ ['\n']) rest

/-- The function `export_to_csv` (source lines 166-177); `name` is the line read
at the prompt.  The result is `none` when no file is opened, otherwise the name
of the file, the content written to it and the count printed in the message
(the stream is taken to open and to accept every write). -/
def export_to_csv {α : Type} (ops : DoubleOps α) (records : List (Record α)) (name : Str) :
    Option (Str × Str × Nat) :=
  if name = [] then none
  else some (name, export_loop ops (HEADER ++ ['\n']) records, records.length)

/-! ## Monthly summary -/

/-- The access `mm[key]` of the `std::map` followed by an update `f` of the
mapped pair: the map is the list of its entries in ascending key order, a key
that is absent is inserted at its place with the value-initialised pair
`(0, 0)`. -/
def map_update (key : Str) (f : ℚ × ℚ → ℚ × ℚ) : List (Str × (ℚ × ℚ)) → List (Str × (ℚ × ℚ))
  | [] => [(key, f (0, 0))]
  | (k, v) :: rest =>
    if str_lt key k = true then (key, f (0, 0)) :: (k, v) :: rest
    else if str_lt k key = true then (k, v) :: map_update key f rest
    else (k, f v) :: rest

/-- The first loop of `monthly_summary` (source lines 152-157); `mm` is the map
built so far. -/
def monthly_loop : List (Record ℚ) → List (Str × (ℚ × ℚ)) → List (Str × (ℚ × ℚ))
  | [], mm => mm
  | r :: rest, mm =>
    if r.date.length < 7 then monthly_loop rest mm
    else if r.amount ≥ 0 then
      monthly_loop rest (map_update (r.date.take 7) (fun p => (p.1 + r.amount, p.2)) mm)
    else monthly_loop rest (map_update (r.date.take 7) (fun p => (p.1, p.2 + -r.amount)) mm)

/-- The rows `monthly_summary` prints (source lines 149-164), in print order:
month key, income, expense and `inc - exp`. -/
def monthly_summary (records : List (Record ℚ)) : List (Str × ℚ × ℚ × ℚ) :=
  (monthly_loop records []).map (fun p => (p.1, p.2.1, p.2.2, p.2.1 - p.2.2))

/-! ## Notions used to state the properties -/

/-- A string with every double-quote character deleted. -/
def strip_quotes (s : Str) : Str :=
  s.filter (fun c => decide (c ≠ '"'))

/-- The value mapped to `key` in a list of map entries. -/
def map_find (key : Str) : List (Str × (ℚ × ℚ)) → Option (ℚ × ℚ)
  | [] => none
  | (k, v) :: rest => if k = key then some v else map_find key rest

/-- The records that fall into the month `key`: date of at least 7 characters
whose first 7 characters are `key`. -/
def in_month (key : Str) (r : Record ℚ) : Bool :=
  decide (7 ≤ r.date.length ∧ r.date.take 7 = key)

/-- The number written by a string of decimal digits. -/
def digits_val (s : Str) : Nat :=
  s.foldl (fun acc c => 10 * acc + (c.toNat - '0'.toNat)) 0

/-- The fixed-width form `YYYY-MM-DD`: 4, 2 and 2 decimal digits separated by `-`. -/
def is_date (s : Str) : Bool :=
  decide (s.length = 10) && (s.take 4).all Char.isDigit &&
  decide ((s.drop 4).take 1 = ['-']) && ((s.drop 5).take 2).all Char.isDigit &&
  decide ((s.drop 7).take 1 = ['-']) && ((s.drop 8).take 2).all Char.isDigit

/-- The (year, month, day) numbers of a date string. -/
def date_triple (s : Str) : Nat × Nat × Nat :=
  (digits_val (s.take 4), digits_val ((s.drop 5).take 2), digits_val ((s.drop 8).take 2))

/-- Calendar order of (year, month, day) triples: strictly earlier. -/
def triple_lt (a b : Nat × Nat × Nat) : Prop :=
  a.1 < b.1 ∨ (a.1 = b.1 ∧ (a.2.1 < b.2.1 ∨ (a.2.1 = b.2.1 ∧ a.2.2 < b.2.2)))

/-- Calendar order of (year, month, day) triples: earlier or equal. -/
def triple_le (a b : Nat × Nat × Nat) : Prop :=
  triple_lt a b ∨ a = b

instance (a b : Nat × Nat × Nat) : Decidable (triple_lt a b) := by
  unfold triple_lt; infer_instance

instance (a b : Nat × Nat × Nat) : Decidable (triple_le a b) := by
  unfold triple_le; infer_instance

/-! ## Lemmas on the codec -/

theorem split_loop_parts (s : Str) (parts : List Str) (cur : Str) (q : Bool) :
    split_loop parts cur q s = parts ++ split_loop [] cur q s := by
  induction s generalizing parts cur q with
  | nil => simp [split_loop]
  | cons c rest ih =>
    simp only [split_loop]
    split_ifs
    · exact ih _ _ _
    · rw [ih (parts ++ [cur]), ih ([] ++ [cur])]; simp
    · exact ih _ _ _

/-- A comma outside quotes closes the current field. -/
theorem split_loop_plain (a : Str) (cur rest : Str) (hc : ',' ∉ a) (hq : '"' ∉ a) :
    split_loop [] cur false (a ++ ',' :: rest) = (cur ++ a) :: split_loop [] [] false rest := by
  induction a generalizing cur with
  | nil => simp [split_loop]; rw [split_loop_parts]; simp
  | cons c a ih =>
    simp only [List.mem_cons, not_or] at hc hq
    have h1 : c ≠ '"' := fun h => hq.1 h.symm
    have h2 : c ≠ ',' := fun h => hc.1 h.symm
    rw [List.cons_append]
    simp only [split_loop, h1, h2, if_false, false_and]
    rw [ih _ hc.2 hq.2]; simp

/-- A line without comma or quote is a single field. -/
theorem split_loop_last (a : Str) (cur : Str) (hc : ',' ∉ a) (hq : '"' ∉ a) :
    split_loop [] cur false a = [cur ++ a] := by
  induction a generalizing cur with
  | nil => simp [split_loop]
  | cons c a ih =>
    simp only [List.mem_cons, not_or] at hc hq
    have h1 : c ≠ '"' := fun h => hq.1 h.symm
    have h2 : c ≠ ',' := fun h => hc.1 h.symm
    simp only [split_loop, h1, h2, if_false, false_and]
    rw [ih _ hc.2 hq.2]; simp

theorem escape_loop_eq (s : Str) (out : Str) :
    escape_loop out s = out ++ double_quotes s := by
  induction s generalizing out with
  | nil => simp [escape_loop, double_quotes]
  | cons c rest ih =>
    simp only [escape_loop]
    split_ifs with h
    · rw [ih]; simp [double_quotes, h]
    · rw [ih]; simp [double_quotes, h]

theorem escape_csv_plain (s : Str) (hc : ',' ∉ s) (hq : '"' ∉ s) : escape_csv s = s := by
  simp [escape_csv, hc, hq]

/-! ## Lemmas on streams, the store and the queries -/

/-- The function `stream_lines` is the iteration of `getline`. -/
theorem stream_lines_getline (fin : Str) :
    stream_lines fin =
      match getline fin with
      | none => []
      | some (line, rest) => line :: stream_lines rest := by
  cases fin with
  | nil => simp [stream_lines, getline]
  | cons c rest =>
    by_cases hc : c = '\n'
    · simp [stream_lines, getline, read_line, hc]
    · cases rest with
      | nil => simp [stream_lines, getline, read_line, hc]
      | cons d rest' =>
        have ih := stream_lines_getline (d :: rest')
        simp only [getline, reduceCtorEq, if_false] at ih
        simp only [getline, reduceCtorEq, if_false]
        rw [stream_lines, if_neg hc, ih]
        conv_rhs => rw [read_line, if_neg hc]
termination_by fin.length

theorem stream_lines_append (l rest : Str) (h : '\n' ∉ l) :
    stream_lines (l ++ '\n' :: rest) = l :: stream_lines rest := by
  induction l with
  | nil => simp [stream_lines]
  | cons c l ih =>
    simp only [List.mem_cons, not_or] at h
    have hc : c ≠ '\n' := fun e => h.1 e.symm
    rw [List.cons_append, stream_lines, if_neg hc, ih h.2]

theorem load_loop_eq {α : Type} (ops : DoubleOps α) (lines : List Str) (records : List (Record α)) :
    load_loop ops lines records = records ++ lines.filterMap (parse_line ops) := by
  induction lines generalizing records with
  | nil => simp [load_loop]
  | cons line rest ih =>
    rw [load_loop, List.filterMap_cons]
    by_cases h0 : line = []
    · simp [h0, parse_line, ih]
    · have h0' : ¬ line.length = 0 := by simpa using h0
      by_cases h4 : (split_csv_line line).length < 4
      · simp [h0', h4, parse_line, ih]
      · simp only [h0', h4, if_false, parse_line, h0, false_or]
        rw [ih]
        cases ops.stod ((split_csv_line line).getD 1 []) <;> simp

theorem save_loop_eq {α : Type} (ops : DoubleOps α) (records : List (Record α)) (fout : Str) :
    save_loop ops fout records
      = fout ++ (records.map (record_line ops)).flatMap (fun l => l ++ ['\n']) := by
  induction records generalizing fout with
  | nil => simp [save_loop]
  | cons r rest ih => rw [save_loop, ih]; simp

theorem stream_lines_flatMap (ls : List Str) (h : ∀ l ∈ ls, '\n' ∉ l) :
    stream_lines (ls.flatMap (fun l => l ++ ['\n'])) = ls := by
  induction ls with
  | nil => simp [stream_lines]
  | cons l ls ih =>
    have h1 := h l (List.mem_cons_self _ _)
    have h2 : ∀ x ∈ ls, '\n' ∉ x := fun x hx => h x (List.mem_cons_of_mem _ hx)
    rw [List.flatMap_cons, List.append_assoc, List.singleton_append,
      stream_lines_append _ _ h1, ih h2]

/-- The comparison `str_lt` is the lexicographic order of `List Char`. -/
theorem str_lt_iff (a b : Str) : str_lt a b = true ↔ a < b := by
  induction a generalizing b with
  | nil =>
    cases b with
    | nil => simp [str_lt]
    | cons b bs => simpa [str_lt] using (List.Lex.nil : List.Lex (· < ·) [] (b :: bs))
  | cons a as ih =>
    cases b with
    | nil =>
      simp only [str_lt, Bool.false_eq_true, false_iff]
      intro h; cases h
    | cons b bs =>
      rw [str_lt]
      by_cases h1 : a < b
      · simpa [h1] using (List.Lex.rel h1 : List.Lex (· < ·) (a :: as) (b :: bs))
      · by_cases h2 : b < a
        · simp only [h1, h2, if_true, if_false, Bool.false_eq_true, false_iff]
          exact lt_asymm (List.Lex.rel h2 : List.Lex (· < ·) (b :: bs) (a :: as))
        · have hab : a = b := le_antisymm (not_lt.mp h2) (not_lt.mp h1)
          subst hab
          simp only [h1, if_false, ih]
          exact (List.Lex.cons_iff (r := (· < ·))).symm

theorem filter_by_date_loop_eq {α : Type} (from_ to_ : Str) (recs out : List (Record α)) :
    filter_by_date_loop from_ to_ recs out = out ++ recs.filter (fun r =>
      decide ((from_ = [] ∨ from_ ≤ r.date) ∧ (to_ = [] ∨ r.date ≤ to_))) := by
  induction recs generalizing out with
  | nil => simp [filter_by_date_loop]
  | cons r rest ih =>
    rw [filter_by_date_loop]
    simp only [str_lt_iff]
    by_cases c1 : from_ ≠ [] ∧ r.date < from_
    · have hP : ¬ ((from_ = [] ∨ from_ ≤ r.date) ∧ (to_ = [] ∨ r.date ≤ to_)) := by
        rintro ⟨h | h, _⟩
        · exact c1.1 h
        · exact absurd c1.2 (not_lt.mpr h)
      rw [if_pos c1, ih, List.filter_cons_of_neg (by simp only [decide_eq_true_eq]; exact hP)]
    · rw [if_neg c1]
      have hF : from_ = [] ∨ from_ ≤ r.date := by
        by_cases h : from_ = []
        · exact Or.inl h
        · exact Or.inr (not_lt.mp (fun hlt => c1 ⟨h, hlt⟩))
      by_cases c2 : to_ ≠ [] ∧ to_ < r.date
      · have hP : ¬ ((from_ = [] ∨ from_ ≤ r.date) ∧ (to_ = [] ∨ r.date ≤ to_)) := by
          rintro ⟨_, h | h⟩
          · exact c2.1 h
          · exact absurd c2.2 (not_lt.mpr h)
        rw [if_pos c2, ih, List.filter_cons_of_neg (by simp only [decide_eq_true_eq]; exact hP)]
      · have hT : to_ = [] ∨ r.date ≤ to_ := by
          by_cases h : to_ = []
          · exact Or.inl h
          · exact Or.inr (not_lt.mp (fun hlt => c2 ⟨h, hlt⟩))
        rw [if_neg c2, ih,
          List.filter_cons_of_pos (by simp only [decide_eq_true_eq]; exact ⟨hF, hT⟩)]
        simp

theorem filter_by_category_loop_eq {α : Type} (cat : Str) (recs out : List (Record α)) :
    filter_by_category_loop cat recs out
      = out ++ recs.filter (fun r => decide (r.category = cat)) := by
  induction recs generalizing out with
  | nil => simp [filter_by_category_loop]
  | cons r rest ih =>
    rw [filter_by_category_loop, List.filter_cons]
    by_cases h : r.category = cat <;> simp [h, ih]

/-- Sum of the non-negative amounts. -/
theorem summary_loop_eq (records : List (Record ℚ)) (income expense : ℚ) :
    summary_loop records (income, expense) =
      (income + ((records.map (fun r => r.amount)).filter (fun a => decide (0 ≤ a))).sum,
       expense + (((records.map (fun r => r.amount)).filter (fun a => decide (a < 0))).map
          (fun a => |a|)).sum) := by
  induction records generalizing income expense with
  | nil => simp [summary_loop]
  | cons r rest ih =>
    rw [summary_loop]
    by_cases h : r.amount ≥ 0
    · have h' : ¬ r.amount < 0 := not_lt.mpr h
      have h'' : 0 ≤ r.amount := h
      simp [h, h', h'', ih, add_assoc]
    · have h' : r.amount < 0 := not_le.mp h
      have h'' : ¬ 0 ≤ r.amount := h
      simp [h, h', h'', ih, add_assoc, abs_of_neg h']

theorem split_csv_line_nil : split_csv_line [] = [[]] := rfl

/-- What `load_data` returns on a file that could be opened, in terms of the
lines of the file: the first line is dropped when it contains the header,
an exception escapes when the first line is a data line of at least 4 fields
whose amount `stod` rejects, and otherwise every line is treated alike. -/
theorem load_data_lines {α : Type} (ops : DoubleOps α) (fin : Str) :
    load_data ops (some fin) =
      match stream_lines fin with
      | [] => some []
      | line :: rest =>
        if HEADER <:+: line then some (rest.filterMap (parse_line ops))
        else if 4 ≤ (split_csv_line line).length ∧
            (ops.stod ((split_csv_line line).getD 1 [])).isNone = true then none
        else some ((line :: rest).filterMap (parse_line ops)) := by
  simp only [load_data]
  generalize stream_lines fin = ls
  cases ls with
  | nil => rfl
  | cons line rest =>
    simp only []
    by_cases hh : HEADER <:+: line
    · simp only [hh, not_true_eq_false, if_true, if_false, load_loop_eq, List.nil_append]
    · simp only [hh, not_false_eq_true, if_true, if_false, ge_iff_le]
      by_cases h4 : 4 ≤ (split_csv_line line).length
      · have hne : line ≠ [] := by
          rintro rfl
          rw [split_csv_line_nil] at h4
          simp at h4
        have h4' : ¬ (split_csv_line line).length < 4 := by omega
        cases hs : ops.stod ((split_csv_line line).getD 1 []) with
        | none => simp only [h4, if_true, true_and, Option.isNone_none]
        | some a =>
          simp only [h4, if_true, true_and, Option.isNone_some, Bool.false_eq_true, if_false,
            load_loop_eq, List.filterMap_cons, parse_line, hne, h4', false_or, hs,
            Option.getD_some, List.singleton_append]
      · have h4' : (split_csv_line line).length < 4 := by omega
        simp only [h4, if_false, false_and, load_loop_eq, List.nil_append, List.filterMap_cons,
          parse_line, h4', or_true, if_true]

/-- The loop of `load_data` keeps a line exactly when it is non-empty and splits
into at least 4 fields. -/
theorem parse_line_isSome {α : Type} (ops : DoubleOps α) (line : Str) :
    (parse_line ops line).isSome = true ↔ line ≠ [] ∧ 4 ≤ (split_csv_line line).length := by
  unfold parse_line
  by_cases h : line = [] ∨ (split_csv_line line).length < 4
  · rw [if_pos h]
    simp only [Option.isSome_none, Bool.false_eq_true, false_iff]
    rintro ⟨h1, h2⟩
    rcases h with h | h
    · exact h1 h
    · omega
  · rw [if_neg h]
    simp only [Option.isSome_some, true_iff]
    push_neg at h
    exact ⟨h.1, h.2⟩

/-- The header line contains the header text. -/
theorem header_infix_self : HEADER <:+: HEADER := List.infix_refl _

/-- A file that starts with the header line loads to the records of the lines
after it, whatever those lines are. -/
theorem load_data_header {α : Type} (ops : DoubleOps α) (fin : Str) :
    load_data ops (some (HEADER ++ '\n' :: fin))
      = some ((stream_lines fin).filterMap (parse_line ops)) := by
  rw [load_data_lines, stream_lines_append _ _ (by decide)]
  simp only [header_infix_self, if_true]

/-! ## Further lemmas on the codec -/

theorem strip_quotes_plain (s : Str) (hq : '"' ∉ s) : strip_quotes s = s := by
  unfold strip_quotes
  rw [List.filter_eq_self]
  intro c hc
  simp only [ne_eq, decide_eq_true_eq]
  rintro rfl
  exact hq hc

theorem strip_quotes_cons_quote (s : Str) : strip_quotes ('"' :: s) = strip_quotes s := by
  simp [strip_quotes]

theorem strip_quotes_cons_other (c : Char) (s : Str) (h : c ≠ '"') :
    strip_quotes (c :: s) = c :: strip_quotes s := by
  simp [strip_quotes, h]

/-- Inside a quoted span the doubled text of `s` leaves `s` without its quotes,
and the closing quote ends the span. -/
theorem split_loop_in_quote (s : Str) (cur rest : Str) :
    split_loop [] cur true (double_quotes s ++ '"' :: rest)
      = split_loop [] (cur ++ strip_quotes s) false rest := by
  induction s generalizing cur with
  | nil => simp [double_quotes, split_loop, strip_quotes]
  | cons c s ih =>
    by_cases hc : c = '"'
    · subst hc
      have e : double_quotes ('"' :: s) = '"' :: '"' :: double_quotes s := by
        simp [double_quotes]
      rw [e, strip_quotes_cons_quote]
      simp only [List.cons_append, split_loop, if_true, Bool.not_true, Bool.not_false]
      exact ih cur
    · have e : double_quotes (c :: s) = c :: double_quotes s := by
        simp [double_quotes, hc]
      rw [e, strip_quotes_cons_other c s hc, List.cons_append]
      simp only [split_loop, hc, if_false, Bool.true_eq_false, and_false]
      rw [ih]
      simp

/-- A line without comma is a single field: the line without its quotes. -/
theorem split_loop_no_comma (s : Str) (cur : Str) (q : Bool) (hc : ',' ∉ s) :
    split_loop [] cur q s = [cur ++ strip_quotes s] := by
  induction s generalizing cur q with
  | nil => simp [split_loop, strip_quotes]
  | cons c s ih =>
    simp only [List.mem_cons, not_or] at hc
    have h2 : c ≠ ',' := fun h => hc.1 h.symm
    by_cases h1 : c = '"'
    · subst h1
      rw [strip_quotes_cons_quote]
      simp only [split_loop, if_true]
      exact ih _ _ hc.2
    · rw [strip_quotes_cons_other c s h1]
      simp only [split_loop, h1, h2, if_false, false_and]
      rw [ih _ _ hc.2]
      simp

theorem split_loop_length_pos (s : Str) (parts : List Str) (cur : Str) (q : Bool) :
    1 ≤ (split_loop parts cur q s).length := by
  induction s generalizing parts cur q with
  | nil => simp [split_loop]
  | cons c s ih =>
    simp only [split_loop]
    split_ifs <;> exact ih _ _ _

theorem split_loop_quote_step (parts : List Str) (cur : Str) (q : Bool) (rest : Str) :
    split_loop parts cur q ('"' :: rest) = split_loop parts cur (!q) rest := by
  simp [split_loop]

theorem split_loop_comma_step (parts : List Str) (cur rest : Str) :
    split_loop parts cur false (',' :: rest) = split_loop (parts ++ [cur]) [] false rest := by
  simp [split_loop]

/-- An encoded field followed by a comma decodes to the field without its
quotes, whatever the field holds. -/
theorem split_loop_escape_comma (s cur rest : Str) :
    split_loop [] cur false (escape_csv s ++ ',' :: rest)
      = (cur ++ strip_quotes s) :: split_loop [] [] false rest := by
  by_cases h : ',' ∉ s ∧ '"' ∉ s
  · rw [escape_csv_plain s h.1 h.2, split_loop_plain s cur rest h.1 h.2,
      strip_quotes_plain s h.2]
  · have e : escape_csv s = '"' :: (double_quotes s ++ ['"']) := by
      simp [escape_csv, h, escape_loop_eq]
    rw [e]
    simp only [List.cons_append, List.append_assoc, List.singleton_append]
    rw [split_loop_quote_step, Bool.not_false, split_loop_in_quote, List.nil_append,
      split_loop_comma_step, split_loop_parts]
    simp

/-- An encoded field at the end of the line decodes to the field without its
quotes. -/
theorem split_loop_escape_last (s cur : Str) :
    split_loop [] cur false (escape_csv s) = [cur ++ strip_quotes s] := by
  by_cases h : ',' ∉ s ∧ '"' ∉ s
  · rw [escape_csv_plain s h.1 h.2, split_loop_last s cur h.1 h.2, strip_quotes_plain s h.2]
  · have e : escape_csv s = '"' :: (double_quotes s ++ ['"']) := by
      simp [escape_csv, h, escape_loop_eq]
    rw [e, split_loop_quote_step, Bool.not_false, split_loop_in_quote]
    simp [split_loop]

theorem intercalate_cons_cons (sep x y : Str) (ys : List Str) :
    List.intercalate sep (x :: y :: ys) = x ++ sep ++ List.intercalate sep (y :: ys) := by
  simp [List.intercalate, List.intersperse]

/-- On a line without quotes: one field more than commas, no comma inside a
field, and the fields joined by commas are the text read. -/
theorem split_loop_no_quote (s : Str) (cur : Str) (hq : '"' ∉ s) (hcur : ',' ∉ cur) :
    (split_loop [] cur false s).length = s.count ',' + 1 ∧
    (∀ f ∈ split_loop [] cur false s, ',' ∉ f) ∧
    List.intercalate [','] (split_loop [] cur false s) = cur ++ s := by
  induction s generalizing cur with
  | nil => simp [split_loop, List.intercalate, hcur]
  | cons c s ih =>
    simp only [List.mem_cons, not_or] at hq
    have h1 : c ≠ '"' := fun h => hq.1 h.symm
    by_cases h2 : c = ','
    · subst h2
      have e : split_loop [] cur false (',' :: s) = cur :: split_loop [] [] false s := by
        rw [split_loop_comma_step, split_loop_parts]
        simp
      obtain ⟨ihl, ihm, ihj⟩ := ih [] hq.2 (by simp)
      rw [e]
      refine ⟨by simp [ihl], ?_, ?_⟩
      · intro f hf
        rcases List.mem_cons.mp hf with rfl | hf
        · exact hcur
        · exact ihm f hf
      · cases hX : split_loop [] [] false s with
        | nil =>
          have := split_loop_length_pos s [] [] false
          rw [hX] at this
          simp at this
        | cons y ys =>
          rw [intercalate_cons_cons, ← hX, ihj]
          simp
    · have e : split_loop [] cur false (c :: s) = split_loop [] (cur ++ [c]) false s := by
        rw [split_loop]
        simp only [h1, h2, if_false, false_and]
      have hcur' : ',' ∉ cur ++ [c] := by
        simp only [List.mem_append, List.mem_singleton, not_or]
        exact ⟨hcur, fun h => h2 h.symm⟩
      obtain ⟨ihl, ihm, ihj⟩ := ih (cur ++ [c]) hq.2 hcur'
      rw [e]
      refine ⟨?_, ihm, ?_⟩
      · rw [ihl, List.count_cons_of_ne (fun h => h2 h.symm)]
      · rw [ihj]; simp

theorem export_loop_eq_save_loop {α : Type} (ops : DoubleOps α) (records : List (Record α))
    (fout : Str) : export_loop ops fout records = save_loop ops fout records := by
  induction records generalizing fout with
  | nil => rfl
  | cons r rest ih =>
    rw [export_loop, save_loop, ih]
    simp [record_line, List.append_assoc]

/-! ## Lemmas on the save/load cycle -/

theorem mem_double_quotes (c : Char) (s : Str) (h : c ∈ double_quotes s) : c ∈ s ∨ c = '"' := by
  induction s with
  | nil => simp [double_quotes] at h
  | cons d s ih =>
    by_cases hd : d = '"'
    · subst hd
      have e : double_quotes ('"' :: s) = '"' :: '"' :: double_quotes s := by
        simp [double_quotes]
      rw [e] at h
      simp only [List.mem_cons] at h ⊢
      rcases h with h | h | h
      · exact Or.inr h
      · exact Or.inr h
      · rcases ih h with h | h
        · exact Or.inl (Or.inr h)
        · exact Or.inr h
    · have e : double_quotes (d :: s) = d :: double_quotes s := by
        simp [double_quotes, hd]
      rw [e] at h
      simp only [List.mem_cons] at h ⊢
      rcases h with h | h
      · exact Or.inl (Or.inl h)
      · rcases ih h with h | h
        · exact Or.inl (Or.inr h)
        · exact Or.inr h

/-- Encoding a field adds only double quotes. -/
theorem mem_escape_csv (c : Char) (s : Str) (h : c ∈ escape_csv s) : c ∈ s ∨ c = '"' := by
  unfold escape_csv at h
  split_ifs at h
  · exact Or.inl h
  · rw [escape_loop_eq] at h
    simp only [List.mem_append, List.mem_singleton] at h
    rcases h with (h | h) | h
    · exact Or.inr h
    · exact mem_double_quotes c s h
    · exact Or.inr h

theorem newline_not_mem_escape_csv (s : Str) (h : '\n' ∉ s) : '\n' ∉ escape_csv s := by
  intro hm
  rcases mem_escape_csv _ _ hm with h' | h'
  · exact h h'
  · exact absurd h' (by decide)

/-- The four fields read back from the line written for a record. -/
theorem split_record_line {α : Type} (ops : DoubleOps α) (r : Record α)
    (hc : ',' ∉ ops.put r.amount) (hq : '"' ∉ ops.put r.amount) :
    split_csv_line (record_line ops r)
      = [strip_quotes r.date, ops.put r.amount, strip_quotes r.category, strip_quotes r.note] := by
  unfold split_csv_line record_line
  simp only [List.append_assoc, List.singleton_append, List.cons_append, List.nil_append]
  rw [split_loop_escape_comma, split_loop_plain _ _ _ hc hq, split_loop_escape_comma,
    split_loop_escape_last]
  simp

theorem record_line_ne_nil {α : Type} (ops : DoubleOps α) (r : Record α) :
    record_line ops r ≠ [] := by
  simp [record_line]

/-- The record loaded from the line written for a record. -/
theorem parse_record_line {α : Type} (ops : DoubleOps α) (r : Record α)
    (hc : ',' ∉ ops.put r.amount) (hq : '"' ∉ ops.put r.amount) :
    parse_line ops (record_line ops r)
      = some ⟨strip_quotes r.date, (ops.stod (ops.put r.amount)).getD ops.zero,
          strip_quotes r.category, strip_quotes r.note⟩ := by
  unfold parse_line
  rw [split_record_line ops r hc hq]
  simp [record_line_ne_nil]

theorem save_data_eq {α : Type} (ops : DoubleOps α) (records : List (Record α)) :
    save_data ops records
      = HEADER ++ '\n' :: (records.map (record_line ops)).flatMap (fun l => l ++ ['\n']) := by
  rw [save_data, save_loop_eq]
  simp

/-! ## Lemmas on the order of date strings -/

theorem char_lt_iff (c d : Char) : c < d ↔ c.toNat < d.toNat := by
  rw [Char.lt_iff_val_lt_val]
  show c.val.toNat < d.val.toNat ↔ _
  rfl

theorem char_eq_iff (c d : Char) : c = d ↔ c.toNat = d.toNat := by
  constructor
  · rintro rfl; rfl
  · intro h
    rw [← Char.ofNat_toNat c, ← Char.ofNat_toNat d, h]

theorem char_digit_bounds (c : Char) (h : c.isDigit = true) : 48 ≤ c.toNat ∧ c.toNat ≤ 57 := by
  simp only [Char.isDigit, Bool.and_eq_true, decide_eq_true_eq] at h
  exact h

theorem cons_lt_cons_iff (a b : Char) (as bs : Str) :
    (a :: as : Str) < b :: bs ↔ a < b ∨ (a = b ∧ as < bs) := by
  rw [← str_lt_iff, ← str_lt_iff, str_lt]
  by_cases h1 : a < b
  · simp [h1]
  · by_cases h2 : b < a
    · have hne : a ≠ b := fun e => h1 (e ▸ h2)
      simp [h1, h2, hne]
    · have hab : a = b := le_antisymm (not_lt.mp h2) (not_lt.mp h1)
      subst hab
      simp

/-- Comparing two texts that start with pieces of the same length. -/
theorem lex_append_iff (a1 b1 a2 b2 : Str) (hl : a1.length = b1.length) :
    a1 ++ a2 < b1 ++ b2 ↔ a1 < b1 ∨ (a1 = b1 ∧ a2 < b2) := by
  induction a1 generalizing b1 with
  | nil =>
    cases b1 with
    | nil => simp
    | cons d b1 => simp at hl
  | cons c a1 ih =>
    cases b1 with
    | nil => simp at hl
    | cons d b1 =>
      have hl' : a1.length = b1.length := by simpa using hl
      rw [List.cons_append, List.cons_append, cons_lt_cons_iff, cons_lt_cons_iff, ih b1 hl']
      simp only [List.cons.injEq]
      tauto

/-- On digit strings of the same length the lexicographic order is the order of
the numbers written, also when the reading continues from given values. -/
theorem digits_foldl_compare (a b : Str) (x y : Nat) (hl : a.length = b.length)
    (ha : ∀ c ∈ a, c.isDigit = true) (hb : ∀ c ∈ b, c.isDigit = true) :
    (a.foldl (fun acc c => 10 * acc + (c.toNat - '0'.toNat)) x
        < b.foldl (fun acc c => 10 * acc + (c.toNat - '0'.toNat)) y
      ↔ x < y ∨ (x = y ∧ a < b)) ∧
    (a.foldl (fun acc c => 10 * acc + (c.toNat - '0'.toNat)) x
        = b.foldl (fun acc c => 10 * acc + (c.toNat - '0'.toNat)) y
      ↔ x = y ∧ a = b) := by
  induction a generalizing b x y with
  | nil =>
    cases b with
    | nil => simp
    | cons d b => simp at hl
  | cons c a ih =>
    cases b with
    | nil => simp at hl
    | cons d b =>
      have hl' : a.length = b.length := by simpa using hl
      have hc := char_digit_bounds c (ha c (List.mem_cons_self _ _))
      have hd := char_digit_bounds d (hb d (List.mem_cons_self _ _))
      have h0 : '0'.toNat = 48 := rfl
      obtain ⟨ih1, ih2⟩ := ih b (10 * x + (c.toNat - '0'.toNat)) (10 * y + (d.toNat - '0'.toNat))
        hl' (fun e he => ha e (List.mem_cons_of_mem _ he))
        (fun e he => hb e (List.mem_cons_of_mem _ he))
      rw [List.foldl_cons, List.foldl_cons, ih1, ih2, cons_lt_cons_iff, char_lt_iff,
        List.cons.injEq, char_eq_iff c d, h0]
      constructor
      · constructor
        · rintro (h | ⟨h, hp⟩)
          · by_cases hxy : x < y
            · exact Or.inl hxy
            · exact Or.inr ⟨by omega, Or.inl (by omega)⟩
          · exact Or.inr ⟨by omega, Or.inr ⟨by omega, hp⟩⟩
        · rintro (h | ⟨h, h' | ⟨h', hp⟩⟩)
          · exact Or.inl (by omega)
          · exact Or.inl (by omega)
          · exact Or.inr ⟨by omega, hp⟩
      · constructor
        · rintro ⟨h, hp⟩
          exact ⟨by omega, by omega, hp⟩
        · rintro ⟨h, h', hp⟩
          exact ⟨by omega, hp⟩

theorem digits_val_lt_iff (a b : Str) (hl : a.length = b.length)
    (ha : ∀ c ∈ a, c.isDigit = true) (hb : ∀ c ∈ b, c.isDigit = true) :
    digits_val a < digits_val b ↔ a < b := by
  have h := (digits_foldl_compare a b 0 0 hl ha hb).1
  simpa [digits_val] using h

theorem digits_val_eq_iff (a b : Str) (hl : a.length = b.length)
    (ha : ∀ c ∈ a, c.isDigit = true) (hb : ∀ c ∈ b, c.isDigit = true) :
    digits_val a = digits_val b ↔ a = b := by
  have h := (digits_foldl_compare a b 0 0 hl ha hb).2
  simpa [digits_val] using h

/-- The three digit groups of a well-formed date. -/
theorem date_parts (s : Str) (h : is_date s = true) :
    s = s.take 4 ++ '-' :: ((s.drop 5).take 2 ++ '-' :: (s.drop 8).take 2) ∧
    (s.take 4).length = 4 ∧ ((s.drop 5).take 2).length = 2 ∧ ((s.drop 8).take 2).length = 2 ∧
    (∀ c ∈ s.take 4, c.isDigit = true) ∧ (∀ c ∈ (s.drop 5).take 2, c.isDigit = true) ∧
    (∀ c ∈ (s.drop 8).take 2, c.isDigit = true) := by
  simp only [is_date, Bool.and_eq_true, decide_eq_true_eq, List.all_eq_true] at h
  obtain ⟨⟨⟨⟨⟨hlen, hY⟩, h4⟩, hM⟩, h7⟩, hD⟩ := h
  refine ⟨?_, by simp [hlen], by simp [hlen], by simp [hlen], hY, hM, hD⟩
  have e8 : (s.drop 8).take 2 = s.drop 8 := List.take_of_length_le (by simp [hlen])
  have e7 : s.drop 7 = '-' :: s.drop 8 := by
    have := List.take_append_drop 1 (s.drop 7)
    rw [h7, List.drop_drop] at this
    simpa using this.symm
  have e5 : s.drop 5 = (s.drop 5).take 2 ++ s.drop 7 := by
    have := List.take_append_drop 2 (s.drop 5)
    rw [List.drop_drop] at this
    simpa using this.symm
  have e4 : s.drop 4 = '-' :: s.drop 5 := by
    have := List.take_append_drop 1 (s.drop 4)
    rw [h4, List.drop_drop] at this
    simpa using this.symm
  calc s = s.take 4 ++ s.drop 4 := (List.take_append_drop 4 s).symm
    _ = s.take 4 ++ '-' :: ((s.drop 5).take 2 ++ '-' :: (s.drop 8).take 2) := by
      rw [e4, e8, ← e7, ← e5]

/-- On well-formed dates the order of the strings is the calendar order. -/
theorem date_lt_iff (a b : Str) (ha : is_date a = true) (hb : is_date b = true) :
    a < b ↔ triple_lt (date_triple a) (date_triple b) := by
  obtain ⟨ea, a1, a2, a3, a4, a5, a6⟩ := date_parts a ha
  obtain ⟨eb, b1, b2, b3, b4, b5, b6⟩ := date_parts b hb
  have hY := digits_val_lt_iff _ _ (a1.trans b1.symm) a4 b4
  have hY' := digits_val_eq_iff _ _ (a1.trans b1.symm) a4 b4
  have hM := digits_val_lt_iff _ _ (a2.trans b2.symm) a5 b5
  have hM' := digits_val_eq_iff _ _ (a2.trans b2.symm) a5 b5
  have hD := digits_val_lt_iff _ _ (a3.trans b3.symm) a6 b6
  have hirr : ¬ ('-' < '-') := by decide
  conv_lhs => rw [ea, eb]
  rw [lex_append_iff _ _ _ _ (a1.trans b1.symm), cons_lt_cons_iff,
    lex_append_iff _ _ _ _ (a2.trans b2.symm), cons_lt_cons_iff]
  simp only [triple_lt, date_triple, hY, hY', hM, hM', hD, hirr, false_or, true_and]

theorem date_eq_iff (a b : Str) (ha : is_date a = true) (hb : is_date b = true) :
    a = b ↔ date_triple a = date_triple b := by
  constructor
  · rintro rfl; rfl
  · intro h
    obtain ⟨ea, a1, a2, a3, a4, a5, a6⟩ := date_parts a ha
    obtain ⟨eb, b1, b2, b3, b4, b5, b6⟩ := date_parts b hb
    simp only [date_triple, Prod.mk.injEq] at h
    obtain ⟨h1, h2, h3⟩ := h
    rw [ea, eb, (digits_val_eq_iff _ _ (a1.trans b1.symm) a4 b4).mp h1,
      (digits_val_eq_iff _ _ (a2.trans b2.symm) a5 b5).mp h2,
      (digits_val_eq_iff _ _ (a3.trans b3.symm) a6 b6).mp h3]

theorem date_le_iff (a b : Str) (ha : is_date a = true) (hb : is_date b = true) :
    a ≤ b ↔ triple_le (date_triple a) (date_triple b) := by
  rw [le_iff_lt_or_eq, date_lt_iff a b ha hb, date_eq_iff a b ha hb, triple_le]

/-! ## Lemmas on the monthly map -/

theorem str_lt_antisymm (a b : Str) (h1 : ¬ str_lt a b = true) (h2 : ¬ str_lt b a = true) :
    a = b := by
  rw [str_lt_iff] at h1 h2
  exact le_antisymm (not_lt.mp h2) (not_lt.mp h1)

/-- The keys after `mm[key]`: the old keys and `key`. -/
theorem map_update_keys (key : Str) (f : ℚ × ℚ → ℚ × ℚ) (m : List (Str × (ℚ × ℚ))) (k : Str) :
    k ∈ (map_update key f m).map Prod.fst ↔ k = key ∨ k ∈ m.map Prod.fst := by
  induction m with
  | nil => simp [map_update]
  | cons e rest ih =>
    obtain ⟨k0, v0⟩ := e
    rw [map_update]
    split_ifs with h1 h2
    · simp
    · simp only [List.map_cons, List.mem_cons, ih]
      tauto
    · have hk : key = k0 := str_lt_antisymm _ _ h1 h2
      simp [hk]

/-- The map stays in strictly ascending key order. -/
theorem map_update_sorted (key : Str) (f : ℚ × ℚ → ℚ × ℚ) (m : List (Str × (ℚ × ℚ)))
    (h : (m.map Prod.fst).Sorted (· < ·)) :
    ((map_update key f m).map Prod.fst).Sorted (· < ·) := by
  induction m with
  | nil => simp [map_update]
  | cons e rest ih =>
    obtain ⟨k0, v0⟩ := e
    simp only [List.map_cons, List.sorted_cons] at h
    rw [map_update]
    split_ifs with h1 h2
    · have hlt : key < k0 := (str_lt_iff _ _).mp h1
      simp only [List.map_cons, List.sorted_cons, List.mem_cons]
      refine ⟨?_, h.1, h.2⟩
      intro b hb
      rcases hb with rfl | hb
      · exact hlt
      · exact hlt.trans (h.1 b hb)
    · have hlt : k0 < key := (str_lt_iff _ _).mp h2
      simp only [List.map_cons, List.sorted_cons]
      refine ⟨?_, ih h.2⟩
      intro b hb
      rcases (map_update_keys key f rest b).mp hb with rfl | hb
      · exact hlt
      · exact h.1 b hb
    · simp only [List.map_cons, List.sorted_cons]
      exact h

theorem map_find_none (key : Str) (m : List (Str × (ℚ × ℚ))) (h : key ∉ m.map Prod.fst) :
    map_find key m = none := by
  induction m with
  | nil => rfl
  | cons e rest ih =>
    obtain ⟨k0, v0⟩ := e
    simp only [List.map_cons, List.mem_cons, not_or] at h
    rw [map_find, if_neg (fun e => h.1 e.symm), ih h.2]

theorem map_find_isSome (key : Str) (m : List (Str × (ℚ × ℚ))) :
    (map_find key m).isSome = true ↔ key ∈ m.map Prod.fst := by
  induction m with
  | nil => simp [map_find]
  | cons e rest ih =>
    obtain ⟨k0, v0⟩ := e
    rw [map_find]
    by_cases h : k0 = key
    · simp [h]
    · rw [if_neg h, ih]
      simp only [List.map_cons, List.mem_cons]
      constructor
      · exact Or.inr
      · rintro (h' | h')
        · exact absurd h'.symm h
        · exact h'

/-- The value found after `mm[key]` and the update `f`. -/
theorem map_find_update (key : Str) (f : ℚ × ℚ → ℚ × ℚ) (m : List (Str × (ℚ × ℚ)))
    (hs : (m.map Prod.fst).Sorted (· < ·)) (k : Str) :
    map_find k (map_update key f m)
      = if k = key then some (f ((map_find key m).getD (0, 0))) else map_find k m := by
  induction m with
  | nil =>
    by_cases hk : k = key
    · simp [map_update, map_find, hk]
    · have hk' : ¬ key = k := fun e => hk e.symm
      simp [map_update, map_find, hk, hk']
  | cons e rest ih =>
    obtain ⟨k0, v0⟩ := e
    simp only [List.map_cons, List.sorted_cons] at hs
    rw [map_update]
    by_cases h1 : str_lt key k0 = true
    · rw [if_pos h1]
      have hlt : key < k0 := (str_lt_iff _ _).mp h1
      by_cases hk : k = key
      · have hnot : key ∉ ((k0, v0) :: rest).map Prod.fst := by
          simp only [List.map_cons, List.mem_cons, not_or]
          refine ⟨ne_of_lt hlt, fun hm => ?_⟩
          exact lt_asymm hlt (hs.1 key hm)
        rw [if_pos hk, map_find_none key _ hnot, hk]
        simp [map_find]
      · rw [if_neg hk, map_find, if_neg (fun e : key = k => hk e.symm)]
    · rw [if_neg h1]
      by_cases h2 : str_lt k0 key = true
      · rw [if_pos h2]
        have hlt : k0 < key := (str_lt_iff _ _).mp h2
        by_cases hk : k = key
        · subst hk
          rw [map_find, if_neg (ne_of_lt hlt), ih hs.2, if_pos rfl, if_pos rfl, map_find,
            if_neg (ne_of_lt hlt)]
        · rw [map_find, ih hs.2, if_neg hk, if_neg hk, map_find]
      · rw [if_neg h2]
        have hk0 : key = k0 := str_lt_antisymm _ _ h1 h2
        subst hk0
        by_cases hk : k = key
        · subst hk
          simp [map_find]
        · rw [if_neg hk, map_find, if_neg (fun e : key = k => hk e.symm), map_find,
            if_neg (fun e : key = k => hk e.symm)]

/-- In a map in ascending key order an entry is what `map_find` returns. -/
theorem map_find_mem (m : List (Str × (ℚ × ℚ))) (hs : (m.map Prod.fst).Sorted (· < ·))
    (k : Str) (v : ℚ × ℚ) : (k, v) ∈ m ↔ map_find k m = some v := by
  induction m with
  | nil => simp [map_find]
  | cons e rest ih =>
    obtain ⟨k0, v0⟩ := e
    simp only [List.map_cons, List.sorted_cons] at hs
    rw [map_find, List.mem_cons]
    by_cases h : k0 = k
    · subst h
      rw [if_pos rfl]
      constructor
      · rintro (h | h)
        · simp only [Prod.mk.injEq, true_and] at h
          rw [h]
        · have hm : k0 ∈ rest.map Prod.fst := List.mem_map.mpr ⟨(k0, v), h, rfl⟩
          exact absurd (hs.1 k0 hm) (lt_irrefl _)
      · intro h
        simp only [Option.some.injEq] at h
        exact Or.inl (by rw [h])
    · rw [if_neg h, ← ih hs.2]
      constructor
      · rintro (h' | h')
        · simp only [Prod.mk.injEq] at h'
          exact absurd h'.1.symm h
        · exact h'
      · exact Or.inr

theorem summary_loop_cons_nonneg (r : Record ℚ) (rest : List (Record ℚ)) (acc : ℚ × ℚ)
    (h : r.amount ≥ 0) :
    summary_loop (r :: rest) acc = summary_loop rest (acc.1 + r.amount, acc.2) := by
  obtain ⟨i, e⟩ := acc
  simp [summary_loop, h]

theorem summary_loop_cons_neg (r : Record ℚ) (rest : List (Record ℚ)) (acc : ℚ × ℚ)
    (h : ¬ r.amount ≥ 0) :
    summary_loop (r :: rest) acc = summary_loop rest (acc.1, acc.2 + -r.amount) := by
  obtain ⟨i, e⟩ := acc
  simp [summary_loop, h]

theorem monthly_loop_sorted (recs : List (Record ℚ)) (mm : List (Str × (ℚ × ℚ)))
    (hs : (mm.map Prod.fst).Sorted (· < ·)) :
    ((monthly_loop recs mm).map Prod.fst).Sorted (· < ·) := by
  induction recs generalizing mm with
  | nil => exact hs
  | cons r rest ih =>
    rw [monthly_loop]
    split_ifs
    · exact ih mm hs
    · exact ih _ (map_update_sorted _ _ _ hs)
    · exact ih _ (map_update_sorted _ _ _ hs)

/-- The pair held for the month `k` after the loop: the totals of the records
of that month, accumulated on what the map held before. -/
theorem monthly_loop_find (recs : List (Record ℚ)) (mm : List (Str × (ℚ × ℚ)))
    (hs : (mm.map Prod.fst).Sorted (· < ·)) (k : Str) :
    map_find k (monthly_loop recs mm)
      = if recs.any (in_month k) = true ∨ (map_find k mm).isSome = true then
          some (summary_loop (recs.filter (in_month k)) ((map_find k mm).getD (0, 0)))
        else none := by
  induction recs generalizing mm with
  | nil =>
    cases h : map_find k mm <;> simp [monthly_loop, summary_loop, h]
  | cons r rest ih =>
    rw [monthly_loop]
    by_cases h7 : r.date.length < 7
    · have hin : in_month k r = false := by
        simp only [in_month, decide_eq_false_iff_not, not_and]
        intro h; omega
      rw [if_pos h7, ih mm hs, List.any_cons, List.filter_cons, hin]
      simp
    · rw [if_neg h7]
      by_cases hk : k = r.date.take 7
      · have hin : in_month k r = true := by
          simp only [in_month, decide_eq_true_eq]
          exact ⟨by omega, hk.symm⟩
        by_cases ha : r.amount ≥ 0
        · rw [if_pos ha, ih _ (map_update_sorted _ _ _ hs), map_find_update _ _ _ hs,
            if_pos hk, List.any_cons, List.filter_cons, hin, ← hk]
          simp [summary_loop_cons_nonneg _ _ _ ha]
        · rw [if_neg ha, ih _ (map_update_sorted _ _ _ hs), map_find_update _ _ _ hs,
            if_pos hk, List.any_cons, List.filter_cons, hin, ← hk]
          simp [summary_loop_cons_neg _ _ _ ha]
      · have hin : in_month k r = false := by
          simp only [in_month, decide_eq_false_iff_not, not_and]
          intro _ h; exact hk h.symm
        by_cases ha : r.amount ≥ 0
        · rw [if_pos ha, ih _ (map_update_sorted _ _ _ hs), map_find_update _ _ _ hs,
            if_neg hk, List.any_cons, List.filter_cons, hin]
          simp
        · rw [if_neg ha, ih _ (map_update_sorted _ _ _ hs), map_find_update _ _ _ hs,
            if_neg hk, List.any_cons, List.filter_cons, hin]
          simp

theorem map_update_sum (key : Str) (f : ℚ × ℚ → ℚ × ℚ) (d1 d2 : ℚ)
    (hf : ∀ p, f p = (p.1 + d1, p.2 + d2)) (m : List (Str × (ℚ × ℚ))) :
    ((map_update key f m).map (fun e => e.2.1)).sum = (m.map (fun e => e.2.1)).sum + d1 ∧
    ((map_update key f m).map (fun e => e.2.2)).sum = (m.map (fun e => e.2.2)).sum + d2 := by
  induction m with
  | nil => simp [map_update, hf]
  | cons e rest ih =>
    obtain ⟨k0, v0⟩ := e
    rw [map_update]
    split_ifs
    · simp only [List.map_cons, List.sum_cons, hf]
      constructor <;> ring
    · simp only [List.map_cons, List.sum_cons, ih.1, ih.2]
      constructor <;> ring
    · simp only [List.map_cons, List.sum_cons, hf]
      constructor <;> ring

theorem summary_loop_acc (recs : List (Record ℚ)) (i e : ℚ) :
    summary_loop recs (i, e)
      = (i + (summary_loop recs (0, 0)).1, e + (summary_loop recs (0, 0)).2) := by
  rw [summary_loop_eq recs i e, summary_loop_eq recs 0 0]
  simp

/-- The sums over the map after the loop: what the map held before plus the
totals of the records that have a month. -/
theorem monthly_loop_sum (recs : List (Record ℚ)) (mm : List (Str × (ℚ × ℚ))) :
    ((monthly_loop recs mm).map (fun e => e.2.1)).sum
      = (mm.map (fun e => e.2.1)).sum
        + (summary_loop (recs.filter (fun r => decide (7 ≤ r.date.length))) (0, 0)).1 ∧
    ((monthly_loop recs mm).map (fun e => e.2.2)).sum
      = (mm.map (fun e => e.2.2)).sum
        + (summary_loop (recs.filter (fun r => decide (7 ≤ r.date.length))) (0, 0)).2 := by
  induction recs generalizing mm with
  | nil => simp [monthly_loop, summary_loop]
  | cons r rest ih =>
    rw [monthly_loop]
    by_cases h7 : r.date.length < 7
    · rw [if_pos h7, List.filter_cons_of_neg (by simp only [decide_eq_true_eq]; omega)]
      exact ih mm
    · rw [if_neg h7, List.filter_cons_of_pos (by simp only [decide_eq_true_eq]; omega)]
      by_cases ha : r.amount ≥ 0
      · rw [if_pos ha, summary_loop_cons_nonneg _ _ _ ha, summary_loop_acc]
        obtain ⟨i1, i2⟩ := ih (map_update (r.date.take 7) (fun p => (p.1 + r.amount, p.2)) mm)
        obtain ⟨u1, u2⟩ := map_update_sum (r.date.take 7) (fun p => (p.1 + r.amount, p.2))
          r.amount 0 (by intro p; simp) mm
        rw [i1, i2, u1, u2]
        constructor <;> simp only [] <;> ring
      · rw [if_neg ha, summary_loop_cons_neg _ _ _ ha, summary_loop_acc]
        obtain ⟨i1, i2⟩ := ih (map_update (r.date.take 7) (fun p => (p.1, p.2 + -r.amount)) mm)
        obtain ⟨u1, u2⟩ := map_update_sum (r.date.take 7) (fun p => (p.1, p.2 + -r.amount))
          0 (-r.amount) (by intro p; simp) mm
        rw [i1, i2, u1, u2]
        constructor <;> simp only [] <;> ring

theorem sum_map_net (m : List (Str × (ℚ × ℚ))) :
    (m.map (fun e => e.2.1 - e.2.2)).sum
      = (m.map (fun e => e.2.1)).sum - (m.map (fun e => e.2.2)).sum := by
  induction m with
  | nil => simp
  | cons e rest ih =>
    simp only [List.map_cons, List.sum_cons, ih]
    ring

/-! ## Claims -/

/-- C1: for a record whose date, category and note hold neither a comma nor a
double quote, and whose amount text holds neither, `split_csv_line` applied to
the line `save_data` writes for it returns exactly the four fields
`[date, amount text, category, note]`. -/
theorem C1_split_record_line_roundtrip {α : Type} (ops : DoubleOps α) (r : Record α)
    (hd : ',' ∉ r.date ∧ '"' ∉ r.date)
    (ha : ',' ∉ ops.put r.amount ∧ '"' ∉ ops.put r.amount)
    (hk : ',' ∉ r.category ∧ '"' ∉ r.category)
    (hn : ',' ∉ r.note ∧ '"' ∉ r.note) :
    split_csv_line (record_line ops r) = [r.date, ops.put r.amount, r.category, r.note] := by
  unfold split_csv_line record_line
  rw [escape_csv_plain _ hd.1 hd.2, escape_csv_plain _ hk.1 hk.2, escape_csv_plain _ hn.1 hn.2]
  simp only [List.append_assoc, List.singleton_append, List.cons_append, List.nil_append]
  rw [split_loop_plain _ _ _ hd.1 hd.2, split_loop_plain _ _ _ ha.1 ha.2,
    split_loop_plain _ _ _ hk.1 hk.2, split_loop_last _ _ hn.1 hn.2]
  simp

/-- C2: `escape_csv s` is `s` when `s` holds neither a comma nor a double quote,
and otherwise a quote, `s` with every quote doubled, and a quote; with the two
examples of the spec. -/
theorem C2_escape_csv_spec :
    (∀ s : Str, escape_csv s =
      if ',' ∉ s ∧ '"' ∉ s then s else ['"'] ++ double_quotes s ++ ['"']) ∧
    escape_csv "Food, Snacks".toList = "\"Food, Snacks\"".toList ∧
    escape_csv "he said \"hi\"".toList = "\"he said \"\"hi\"\"\"".toList := by
  refine ⟨?_, by decide, by decide⟩
  intro s
  unfold escape_csv
  split_ifs
  · rfl
  · rw [escape_loop_eq]

/-- Witness of C1 on the record `2024-01-05, -42, Food, lunch`. -/
theorem C1_split_record_line_roundtrip_witness :
    split_csv_line (record_line intOps ⟨"2024-01-05".toList, -42, "Food".toList, "lunch".toList⟩)
      = ["2024-01-05".toList, "-42".toList, "Food".toList, "lunch".toList] :=
  C1_split_record_line_roundtrip intOps ⟨"2024-01-05".toList, -42, "Food".toList, "lunch".toList⟩
    (by decide) (by decide) (by decide) (by decide)

/-- C3 (evaluation at the failing input): saving the single record
`2024-01-05, -5, Food, say "hi"` and loading the file again gives a record whose
note is `say hi`: the quotes are lost, so the loaded record differs from the
saved one. -/
theorem C3_save_load_loses_quotes :
    load_data intOps (some (save_data intOps
        [⟨"2024-01-05".toList, -5, "Food".toList, "say \"hi\"".toList⟩]))
      = some [⟨"2024-01-05".toList, -5, "Food".toList, "say hi".toList⟩] ∧
    load_data intOps (some (save_data intOps
        [⟨"2024-01-05".toList, -5, "Food".toList, "say \"hi\"".toList⟩]))
      ≠ some [⟨"2024-01-05".toList, -5, "Food".toList, "say \"hi\"".toList⟩] := by
  decide

/-- C4 (evaluation at the failing input): on a file whose first line is the
data line `2024-01-05,abc,Food,lunch`, an exception leaves `load_data`; the same
line in second position is loaded with amount `0`. -/
theorem C4_load_data_first_line_throws :
    load_data intOps (some "2024-01-05,abc,Food,lunch\n".toList) = none ∧
    load_data intOps (some "2024-01-04,7,Rent,x\n2024-01-05,abc,Food,lunch\n".toList)
      = some [⟨"2024-01-04".toList, 7, "Rent".toList, "x".toList⟩,
              ⟨"2024-01-05".toList, 0, "Food".toList, "lunch".toList⟩] := by
  decide

/-- C5 (evaluation at the failing input): the file with the two lines
`2024-01-05,n/a,Food,lunch` and `2024-01-06,7` has one non-empty line of at
least 4 fields, yet `load_data` produces no record sequence at all. -/
theorem C5_load_data_no_record_sequence :
    (stream_lines "2024-01-05,n/a,Food,lunch\n2024-01-06,7\n".toList).map
        (fun l => decide (l ≠ [] ∧ 4 ≤ (split_csv_line l).length)) = [true, false] ∧
    load_data intOps (some "2024-01-05,n/a,Food,lunch\n2024-01-06,7\n".toList) = none := by
  decide

/-- C6 (evaluation at the failing input): the header-less file with the single
line `2024-01-07,?,Salary,bonus` does not load, while the same file with the
header line in front loads to one record. -/
theorem C6_header_prepended_differs :
    load_data intOps (some "2024-01-07,?,Salary,bonus\n".toList) = none ∧
    load_data intOps (some (HEADER ++ '\n' :: "2024-01-07,?,Salary,bonus\n".toList))
      = some [⟨"2024-01-07".toList, 0, "Salary".toList, "bonus".toList⟩] := by
  decide

/-- C7: for `n` records `save_data` writes `n + 1` newline-terminated lines, the
header first and then the encoding of each record in sequence order; when no
encoded record holds a newline these are exactly the lines read back from the
file. -/
theorem C7_save_data_lines {α : Type} (ops : DoubleOps α) (records : List (Record α)) :
    save_data ops records
      = (HEADER :: records.map (record_line ops)).flatMap (fun l => l ++ ['\n']) ∧
    (HEADER :: records.map (record_line ops)).length = records.length + 1 ∧
    ((∀ r ∈ records, '\n' ∉ record_line ops r) →
      stream_lines (save_data ops records) = HEADER :: records.map (record_line ops)) := by
  have h : save_data ops records
      = (HEADER :: records.map (record_line ops)).flatMap (fun l => l ++ ['\n']) := by
    rw [save_data, save_loop_eq, List.flatMap_cons]
  refine ⟨h, by simp, fun hn => ?_⟩
  rw [h]
  apply stream_lines_flatMap
  intro l hl
  rcases List.mem_cons.mp hl with rfl | hl
  · decide
  · obtain ⟨r, hr, rfl⟩ := List.mem_map.mp hl
    exact hn r hr

/-- Witness of C7 on two records, one of them with a quoted category. -/
theorem C7_save_data_lines_witness :
    stream_lines (save_data intOps
        [⟨"2024-01-05".toList, -42, "Food, Snacks".toList, "lunch".toList⟩,
         ⟨"2024-01-07".toList, 1500, "Salary".toList, [] ⟩])
      = ["date,amount,category,note".toList, "2024-01-05,-42,\"Food, Snacks\",lunch".toList,
         "2024-01-07,1500,Salary,".toList] :=
  (C7_save_data_lines intOps
    [⟨"2024-01-05".toList, -42, "Food, Snacks".toList, "lunch".toList⟩,
     ⟨"2024-01-07".toList, 1500, "Salary".toList, [] ⟩]).2.2 (by decide)

/-- C8: `filter_by_date` returns, in the original order, exactly the records `r`
with (`from` empty or `from ≤ r.date`) and (`to` empty or `r.date ≤ to`) in the
lexicographic order of strings; with `from = 2024-01-10` and `to` empty a record
dated `2024-01-05` is dropped and one dated `2024-01-10` is kept. -/
theorem C8_filter_by_date_spec :
    (∀ {α : Type} (recs : List (Record α)) (from_ to_ : Str),
      filter_by_date recs from_ to_ = recs.filter (fun r =>
        decide ((from_ = [] ∨ from_ ≤ r.date) ∧ (to_ = [] ∨ r.date ≤ to_)))) ∧
    (∀ {α : Type} (a b : α) (c n : Str),
      filter_by_date [⟨"2024-01-05".toList, a, c, n⟩, ⟨"2024-01-10".toList, b, c, n⟩]
        "2024-01-10".toList [] = [⟨"2024-01-10".toList, b, c, n⟩]) := by
  have key : ∀ {α : Type} (recs : List (Record α)) (from_ to_ : Str),
      filter_by_date recs from_ to_ = recs.filter (fun r =>
        decide ((from_ = [] ∨ from_ ≤ r.date) ∧ (to_ = [] ∨ r.date ≤ to_))) := by
    intro α recs from_ to_
    rw [filter_by_date, filter_by_date_loop_eq, List.nil_append]
  refine ⟨key, ?_⟩
  intro α a b c n
  have h1 : str_lt "2024-01-05".toList "2024-01-10".toList = true := by decide
  have h2 : str_lt "2024-01-10".toList "2024-01-10".toList = false := by decide
  have h3 : "2024-01-10".toList ≠ [] := by decide
  simp only [filter_by_date, filter_by_date_loop, h1, h2, h3, ne_eq, not_false_eq_true,
    not_true_eq_false, and_self, false_and, if_true, if_false, List.nil_append,
    Bool.false_eq_true, and_false]

/-- C9: `filter_by_category` returns, in the original order, exactly the records
whose category equals `cat` character for character; `food` does not keep a
record categorized `Food`. -/
theorem C9_filter_by_category_spec :
    (∀ {α : Type} (recs : List (Record α)) (cat : Str),
      filter_by_category recs cat = recs.filter (fun r => decide (r.category = cat))) ∧
    (∀ {α : Type} (d : Str) (a : α) (n : Str),
      filter_by_category [⟨d, a, "Food".toList, n⟩] "food".toList = []) := by
  refine ⟨?_, ?_⟩
  · intro α recs cat
    rw [filter_by_category, filter_by_category_loop_eq, List.nil_append]
  · intro α d a n
    have h : "Food".toList ≠ "food".toList := by decide
    simp only [filter_by_category, filter_by_category_loop, h, if_false]

/-- C10: on exact amounts the totals of `show_summary` are: income, the sum of
the amounts that are `≥ 0` (zero included); expense, the sum of the absolute
values of the amounts that are `< 0`; net, income minus expense.  Amounts
`[100, -40, 0, -10]` give `(100, 50, 50)`. -/
theorem C10_show_summary_totals :
    (∀ records : List (Record ℚ),
      show_summary records =
        (((records.map (fun r => r.amount)).filter (fun a => decide (0 ≤ a))).sum,
         (((records.map (fun r => r.amount)).filter (fun a => decide (a < 0))).map
            (fun a => |a|)).sum,
         ((records.map (fun r => r.amount)).filter (fun a => decide (0 ≤ a))).sum
          - (((records.map (fun r => r.amount)).filter (fun a => decide (a < 0))).map
            (fun a => |a|)).sum)) ∧
    (∀ d c n : Str, show_summary
        [⟨d, 100, c, n⟩, ⟨d, -40, c, n⟩, ⟨d, 0, c, n⟩, ⟨d, -10, c, n⟩] = (100, 50, 50)) := by
  have key : ∀ records : List (Record ℚ),
      show_summary records =
        (((records.map (fun r => r.amount)).filter (fun a => decide (0 ≤ a))).sum,
         (((records.map (fun r => r.amount)).filter (fun a => decide (a < 0))).map
            (fun a => |a|)).sum,
         ((records.map (fun r => r.amount)).filter (fun a => decide (0 ≤ a))).sum
          - (((records.map (fun r => r.amount)).filter (fun a => decide (a < 0))).map
            (fun a => |a|)).sum) := by
    intro records
    simp only [show_summary, summary_loop_eq, zero_add]
  refine ⟨key, ?_⟩
  intro d c n
  rw [key]
  norm_num [List.filter, abs_of_neg]

/-- C12 (counterexample): the line `"x"` holds no comma, yet the single field
returned is `x`, not the whole line. -/
theorem C12_counterexample :
    ',' ∉ "\"x\"".toList ∧ split_csv_line "\"x\"".toList = ["x".toList] ∧
    split_csv_line "\"x\"".toList ≠ ["\"x\"".toList] := by
  decide

/-- C12 (amended): for every line `split_csv_line` returns at least one field;
for a line without comma it returns exactly one field, the line with its
double-quote characters deleted, which is the whole line when the line holds no
double quote. -/
theorem C12_split_csv_line_single_field (line : Str) :
    1 ≤ (split_csv_line line).length ∧
    (',' ∉ line → split_csv_line line = [strip_quotes line]) ∧
    (',' ∉ line → '"' ∉ line → split_csv_line line = [line]) := by
  refine ⟨split_loop_length_pos _ _ _ _, fun hc => ?_, fun hc hq => ?_⟩
  · rw [split_csv_line, split_loop_no_comma _ _ _ hc]; simp
  · rw [split_csv_line, split_loop_no_comma _ _ _ hc, strip_quotes_plain _ hq]; simp

/-- Witness of C12 on the lines `"x"` and `lunch`. -/
theorem C12_split_csv_line_single_field_witness :
    split_csv_line "\"x\"".toList = [strip_quotes "\"x\"".toList] ∧
    split_csv_line "lunch".toList = ["lunch".toList] :=
  ⟨(C12_split_csv_line_single_field "\"x\"".toList).2.1 (by decide),
   (C12_split_csv_line_single_field "lunch".toList).2.2 (by decide) (by decide)⟩

/-- C13: when the amount text does not parse, `add_record` leaves the record
sequence unchanged and saves nothing; when it parses to `a`, the result is the
old sequence with one record appended at the end, whose amount is `a`, whose
category is `Uncategorized` for an empty entry and the entry otherwise, and the
whole resulting sequence is what `save_data` writes. -/
theorem C13_add_record_spec {α : Type} (ops : DoubleOps α) (today : Str)
    (records : List (Record α)) (s amt category note : Str) :
    (ops.stod amt = none →
      add_record ops today records s amt category note = (records, none)) ∧
    (∀ a : α, ops.stod amt = some a →
      ∃ r : Record α,
        r.date = (if s = [] then today else s) ∧ r.amount = a ∧
        r.category = (if category = [] then "Uncategorized".toList else category) ∧
        r.note = note ∧
        add_record ops today records s amt category note
          = (records ++ [r], some (save_data ops (records ++ [r])))) := by
  refine ⟨fun h => ?_, fun a h => ?_⟩
  · simp only [add_record, h]
  · exact ⟨⟨if s = [] then today else s, a,
      if category = [] then "Uncategorized".toList else category, note⟩,
      rfl, rfl, rfl, rfl, by simp only [add_record, h]⟩

/-- Witness of C13: the amount text `abc` aborts the add, the amount text `12`
with an empty category appends one record. -/
theorem C13_add_record_spec_witness :
    add_record intOps "2024-03-01".toList [⟨"2024-01-05".toList, -42, "Food".toList, []⟩]
        [] "abc".toList "Rent".toList [] =
      ([⟨"2024-01-05".toList, -42, "Food".toList, []⟩], none) ∧
    ∃ r : Record Int,
      r.date = (if ([] : Str) = [] then "2024-03-01".toList else []) ∧ r.amount = 12 ∧
      r.category = (if ([] : Str) = [] then "Uncategorized".toList else []) ∧
      r.note = "gift".toList ∧
      add_record intOps "2024-03-01".toList [⟨"2024-01-05".toList, -42, "Food".toList, []⟩]
          [] "12".toList [] "gift".toList
        = ([⟨"2024-01-05".toList, -42, "Food".toList, []⟩] ++ [r],
           some (save_data intOps ([⟨"2024-01-05".toList, -42, "Food".toList, []⟩] ++ [r]))) :=
  ⟨(C13_add_record_spec intOps "2024-03-01".toList [⟨"2024-01-05".toList, -42, "Food".toList, []⟩]
      [] "abc".toList "Rent".toList []).1 (by decide),
   (C13_add_record_spec intOps "2024-03-01".toList [⟨"2024-01-05".toList, -42, "Food".toList, []⟩]
      [] "12".toList [] "gift".toList).2 12 (by decide)⟩

/-- C14: for a non-empty filename `export_to_csv` writes to that file exactly
the content `save_data` writes for the same records and reports the number of
records; for an empty filename it writes nothing. -/
theorem C14_export_same_as_save {α : Type} (ops : DoubleOps α) (records : List (Record α))
    (name : Str) :
    (name ≠ [] →
      export_to_csv ops records name = some (name, save_data ops records, records.length)) ∧
    (name = [] → export_to_csv ops records name = none) := by
  refine ⟨fun h => ?_, fun h => ?_⟩
  · rw [export_to_csv, if_neg h, export_loop_eq_save_loop, save_data]
  · rw [export_to_csv, if_pos h]

/-- Witness of C14 on one record, with the filename `export.csv` and with the
empty filename. -/
theorem C14_export_same_as_save_witness :
    export_to_csv intOps [⟨"2024-01-05".toList, -42, "Food, Snacks".toList, []⟩]
        "export.csv".toList
      = some ("export.csv".toList,
          save_data intOps [⟨"2024-01-05".toList, -42, "Food, Snacks".toList, []⟩], 1) ∧
    export_to_csv intOps [⟨"2024-01-05".toList, -42, "Food, Snacks".toList, []⟩] [] = none :=
  ⟨(C14_export_same_as_save intOps [⟨"2024-01-05".toList, -42, "Food, Snacks".toList, []⟩]
      "export.csv".toList).1 (by decide),
   (C14_export_same_as_save intOps [⟨"2024-01-05".toList, -42, "Food, Snacks".toList, []⟩]
      []).2 rfl⟩

/-- C15: for every string `s`, `split_csv_line (escape_csv s)` is the one-element
list holding `s` with every double quote deleted, so embedded commas never
split the field; a field with a double quote is therefore not reconstructed,
and a field without double quote (commas allowed) is reconstructed exactly. -/
theorem C15_split_escape_strips_quotes (s : Str) :
    split_csv_line (escape_csv s) = [strip_quotes s] ∧
    ('"' ∈ s → split_csv_line (escape_csv s) ≠ [s]) ∧
    ('"' ∉ s → split_csv_line (escape_csv s) = [s]) := by
  have h : split_csv_line (escape_csv s) = [strip_quotes s] := by
    rw [split_csv_line, split_loop_escape_last]; simp
  refine ⟨h, fun hq => ?_, fun hq => ?_⟩
  · rw [h]
    intro e
    have e' : strip_quotes s = s := by simpa using e
    have hm : '"' ∈ strip_quotes s := by rw [e']; exact hq
    simp [strip_quotes] at hm
  · rw [h, strip_quotes_plain s hq]

/-- Witness of C15 on `he said "hi"` and on `Food, Snacks`. -/
theorem C15_split_escape_strips_quotes_witness :
    split_csv_line (escape_csv "he said \"hi\"".toList) ≠ ["he said \"hi\"".toList] ∧
    split_csv_line (escape_csv "Food, Snacks".toList) = ["Food, Snacks".toList] :=
  ⟨(C15_split_escape_strips_quotes "he said \"hi\"".toList).2.1 (by decide),
   (C15_split_escape_strips_quotes "Food, Snacks".toList).2.2 (by decide)⟩

/-- C17: for a line without double quote, `split_csv_line` returns one field
more than the line has commas, no field holds a comma, and the fields joined by
commas give back the line. -/
theorem C17_split_no_quote (line : Str) (hq : '"' ∉ line) :
    (split_csv_line line).length = line.count ',' + 1 ∧
    (∀ f ∈ split_csv_line line, ',' ∉ f) ∧
    List.intercalate [','] (split_csv_line line) = line := by
  have h := split_loop_no_quote line [] hq (by simp)
  simpa [split_csv_line] using h

/-- Witness of C17 on the line `2024-01-07,1500,Salary,`. -/
theorem C17_split_no_quote_witness :
    (split_csv_line "2024-01-07,1500,Salary,".toList).length
        = "2024-01-07,1500,Salary,".toList.count ',' + 1 ∧
    (∀ f ∈ split_csv_line "2024-01-07,1500,Salary,".toList, ',' ∉ f) ∧
    List.intercalate [','] (split_csv_line "2024-01-07,1500,Salary,".toList)
      = "2024-01-07,1500,Salary,".toList :=
  C17_split_no_quote "2024-01-07,1500,Salary,".toList (by decide)

/-- C18: when no date, category or note holds a newline (and the amount texts
hold no comma, double quote or newline, as number renderings do), loading what
`save_data` wrote gives one record per saved record, in the same order, whose
date, category and note are the originals with every double quote deleted. -/
theorem C18_save_load_keeps_records {α : Type} (ops : DoubleOps α) (records : List (Record α))
    (hput : ∀ r ∈ records,
      ',' ∉ ops.put r.amount ∧ '"' ∉ ops.put r.amount ∧ '\n' ∉ ops.put r.amount)
    (hnl : ∀ r ∈ records, '\n' ∉ r.date ∧ '\n' ∉ r.category ∧ '\n' ∉ r.note) :
    load_data ops (some (save_data ops records))
      = some (records.map (fun r => ⟨strip_quotes r.date,
          (ops.stod (ops.put r.amount)).getD ops.zero,
          strip_quotes r.category, strip_quotes r.note⟩)) := by
  have hlines : ∀ l ∈ records.map (record_line ops), '\n' ∉ l := by
    intro l hl
    obtain ⟨r, hr, rfl⟩ := List.mem_map.mp hl
    obtain ⟨h1, h2, h3⟩ := hnl r hr
    have h4 := (hput r hr).2.2
    have e1 := newline_not_mem_escape_csv _ h1
    have e2 := newline_not_mem_escape_csv _ h2
    have e3 := newline_not_mem_escape_csv _ h3
    simp only [record_line, List.mem_append, List.mem_singleton, not_or]
    exact ⟨⟨⟨⟨⟨⟨e1, by decide⟩, h4⟩, by decide⟩, e2⟩, by decide⟩, e3⟩
  rw [save_data_eq, load_data_header, stream_lines_flatMap _ hlines, List.filterMap_map]
  congr 1
  clear hlines hnl
  induction records with
  | nil => rfl
  | cons r rest ih =>
    have hr := hput r (List.mem_cons_self _ _)
    rw [List.filterMap_cons, List.map_cons]
    simp only [Function.comp_apply, parse_record_line ops r hr.1 hr.2.1]
    rw [ih (fun x hx => hput x (List.mem_cons_of_mem _ hx))]

/-- Witness of C18 on two records with commas and quotes in their fields. -/
theorem C18_save_load_keeps_records_witness :
    load_data intOps (some (save_data intOps
        [⟨"2024-01-05".toList, -42, "Food, Snacks".toList, "he said \"hi\"".toList⟩,
         ⟨"2024-01-07".toList, 1500, "Salary".toList, []⟩]))
      = some (([⟨"2024-01-05".toList, -42, "Food, Snacks".toList, "he said \"hi\"".toList⟩,
         ⟨"2024-01-07".toList, 1500, "Salary".toList, []⟩] : List (Record Int)).map
          (fun r => (⟨strip_quotes r.date, (intOps.stod (intOps.put r.amount)).getD intOps.zero,
            strip_quotes r.category, strip_quotes r.note⟩ : Record Int))) :=
  C18_save_load_keeps_records intOps
    [⟨"2024-01-05".toList, -42, "Food, Snacks".toList, "he said \"hi\"".toList⟩,
     ⟨"2024-01-07".toList, 1500, "Salary".toList, []⟩] (by decide) (by decide)

/-- C20: the date filter and the category filter commute, and the result is a
sub-sequence of the records given: nothing is altered, duplicated or
reordered. -/
theorem C20_filters_commute {α : Type} (recs : List (Record α)) (from_ to_ cat : Str) :
    filter_by_category (filter_by_date recs from_ to_) cat
      = filter_by_date (filter_by_category recs cat) from_ to_ ∧
    List.Sublist (filter_by_category (filter_by_date recs from_ to_) cat) recs := by
  simp only [filter_by_category, filter_by_date, filter_by_category_loop_eq,
    filter_by_date_loop_eq, List.nil_append]
  refine ⟨?_, ?_⟩
  · rw [List.filter_filter, List.filter_filter]
    congr 1
    funext r
    exact Bool.and_comm _ _
  · exact (List.filter_sublist _).trans (List.filter_sublist _)

/-- C16: on date strings of the form `YYYY-MM-DD` the string comparison of the
program agrees with the comparison of the (year, month, day) triples; hence,
when the record dates and the non-empty bounds have that form, `filter_by_date`
keeps exactly the records whose triple lies between the bounds, inclusive. -/
theorem C16_lexical_is_chronological :
    (∀ a b : Str, is_date a = true → is_date b = true →
      (str_lt a b = true ↔ triple_lt (date_triple a) (date_triple b))) ∧
    (∀ {α : Type} (recs : List (Record α)) (from_ to_ : Str),
      (∀ r ∈ recs, is_date r.date = true) → (from_ = [] ∨ is_date from_ = true) →
      (to_ = [] ∨ is_date to_ = true) →
      filter_by_date recs from_ to_ = recs.filter (fun r => decide (
        (from_ = [] ∨ triple_le (date_triple from_) (date_triple r.date)) ∧
        (to_ = [] ∨ triple_le (date_triple r.date) (date_triple to_))))) := by
  refine ⟨fun a b ha hb => ?_, ?_⟩
  · rw [str_lt_iff, date_lt_iff a b ha hb]
  · intro α recs from_ to_ hdates hfrom hto
    rw [filter_by_date, filter_by_date_loop_eq, List.nil_append]
    apply List.filter_congr
    intro r hr
    have hr' := hdates r hr
    have e1 : (from_ = [] ∨ from_ ≤ r.date)
        ↔ (from_ = [] ∨ triple_le (date_triple from_) (date_triple r.date)) := by
      rcases hfrom with h | h
      · simp [h]
      · rw [date_le_iff _ _ h hr']
    have e2 : (to_ = [] ∨ r.date ≤ to_)
        ↔ (to_ = [] ∨ triple_le (date_triple r.date) (date_triple to_)) := by
      rcases hto with h | h
      · simp [h]
      · rw [date_le_iff _ _ hr' h]
    exact decide_eq_decide.mpr (and_congr e1 e2)

/-- Witness of C16 on the dates `2024-01-05` and `2024-01-10`. -/
theorem C16_lexical_is_chronological_witness :
    (str_lt "2024-01-05".toList "2024-01-10".toList = true
      ↔ triple_lt (date_triple "2024-01-05".toList) (date_triple "2024-01-10".toList)) ∧
    filter_by_date ([⟨"2024-01-05".toList, 7, [], []⟩, ⟨"2024-01-10".toList, 8, [], []⟩] :
        List (Record Int)) "2024-01-10".toList []
      = ([⟨"2024-01-05".toList, 7, [], []⟩, ⟨"2024-01-10".toList, 8, [], []⟩] :
        List (Record Int)).filter (fun r => decide (
          ("2024-01-10".toList = [] ∨
            triple_le (date_triple "2024-01-10".toList) (date_triple r.date)) ∧
          (([] : Str) = [] ∨ triple_le (date_triple r.date) (date_triple [])))) :=
  ⟨C16_lexical_is_chronological.1 "2024-01-05".toList "2024-01-10".toList (by decide) (by decide),
   C16_lexical_is_chronological.2 _ "2024-01-10".toList [] (by decide) (Or.inr (by decide))
     (Or.inl rfl)⟩

/-- C11: the rows of `monthly_summary` are in strictly ascending key order (so
no key occurs twice); the keys are exactly the 7-character prefixes of the
dates of at least 7 characters; and each row carries the `show_summary` totals
of exactly the records of its month.  The three records of the spec give the
rows `2024-01: 200, 50, 150` and `2024-02: 10, 0, 10`. -/
theorem C11_monthly_summary_spec :
    (∀ records : List (Record ℚ),
      ((monthly_summary records).map (fun row => row.1)).Sorted (· < ·) ∧
      (∀ k : Str, k ∈ (monthly_summary records).map (fun row => row.1)
        ↔ ∃ r ∈ records, 7 ≤ r.date.length ∧ r.date.take 7 = k) ∧
      (∀ row ∈ monthly_summary records,
        row.2 = show_summary (records.filter (in_month row.1)))) ∧
    (∀ c n : Str, monthly_summary
        [⟨"2024-01-15".toList, 200, c, n⟩, ⟨"2024-01-20".toList, -50, c, n⟩,
         ⟨"2024-02-01".toList, 10, c, n⟩]
      = [("2024-01".toList, 200, 50, 150), ("2024-02".toList, 10, 0, 10)]) := by
  refine ⟨fun records => ?_, fun c n => ?_⟩
  · have hs := monthly_loop_sorted records [] (by simp)
    have hf := fun k => monthly_loop_find records [] (by simp) k
    have hkeys : (monthly_summary records).map (fun row => row.1)
        = (monthly_loop records []).map Prod.fst := by
      simp [monthly_summary, List.map_map, Function.comp_def]
    refine ⟨by rw [hkeys]; exact hs, fun k => ?_, fun row hrow => ?_⟩
    · rw [hkeys, ← map_find_isSome, hf k]
      simp only [map_find, Option.isSome_none, Bool.false_eq_true, or_false, List.any_eq_true,
        in_month, decide_eq_true_eq]
      constructor
      · intro h
        by_contra hne
        rw [if_neg hne] at h
        simp at h
      · intro h
        rw [if_pos h]
        rfl
    · obtain ⟨e, he, rfl⟩ := List.mem_map.mp hrow
      obtain ⟨k, v⟩ := e
      have hv := (map_find_mem _ hs k v).mp he
      rw [hf k] at hv
      split_ifs at hv
      simp only [map_find, Option.getD_none, Option.some.injEq] at hv
      simp only [show_summary, hv]
  · have t1 : "2024-01-15".toList.take 7 = "2024-01".toList := by decide
    have t2 : "2024-01-20".toList.take 7 = "2024-01".toList := by decide
    have t3 : "2024-02-01".toList.take 7 = "2024-02".toList := by decide
    have l1 : ¬ ("2024-01-15".toList.length < 7) := by decide
    have l2 : ¬ ("2024-01-20".toList.length < 7) := by decide
    have l3 : ¬ ("2024-02-01".toList.length < 7) := by decide
    have s1 : str_lt "2024-01".toList "2024-01".toList = false := by decide
    have s2 : str_lt "2024-02".toList "2024-01".toList = false := by decide
    have s3 : str_lt "2024-01".toList "2024-02".toList = true := by decide
    have a1 : (200 : ℚ) ≥ 0 := by norm_num
    have a2 : ¬ ((-50 : ℚ) ≥ 0) := by norm_num
    have a3 : (10 : ℚ) ≥ 0 := by norm_num
    simp only [monthly_summary, monthly_loop, map_update, t1, t2, t3, l1, l2, l3, s1, s2, s3,
      a1, a2, a3, if_true, if_false, Bool.false_eq_true, List.map_cons, List.map_nil]
    norm_num

/-- C19: the bucket incomes, expenses and nets of `monthly_summary` add up to
the `show_summary` totals of the records whose date has at least 7 characters,
hence to the overall totals when every date has at least 7 characters. -/
theorem C19_monthly_partition (records : List (Record ℚ)) :
    (((monthly_summary records).map (fun row => row.2.1)).sum,
     ((monthly_summary records).map (fun row => row.2.2.1)).sum,
     ((monthly_summary records).map (fun row => row.2.2.2)).sum)
      = show_summary (records.filter (fun r => decide (7 ≤ r.date.length))) ∧
    ((∀ r ∈ records, 7 ≤ r.date.length) →
      (((monthly_summary records).map (fun row => row.2.1)).sum,
       ((monthly_summary records).map (fun row => row.2.2.1)).sum,
       ((monthly_summary records).map (fun row => row.2.2.2)).sum)
        = show_summary records) := by
  have key : (((monthly_summary records).map (fun row => row.2.1)).sum,
     ((monthly_summary records).map (fun row => row.2.2.1)).sum,
     ((monthly_summary records).map (fun row => row.2.2.2)).sum)
      = show_summary (records.filter (fun r => decide (7 ≤ r.date.length))) := by
    obtain ⟨h1, h2⟩ := monthly_loop_sum records []
    simp only [List.map_nil, List.sum_nil, zero_add] at h1 h2
    simp only [monthly_summary, List.map_map, Function.comp_def, show_summary,
      sum_map_net, h1, h2]
  refine ⟨key, fun hall => ?_⟩
  rw [key]
  congr 1
  rw [List.filter_eq_self]
  intro r hr
  simpa using hall r hr

/-- Witness of C19 on the three records of the monthly example. -/
theorem C19_monthly_partition_witness :
    (((monthly_summary [⟨"2024-01-15".toList, 200, [], []⟩, ⟨"2024-01-20".toList, -50, [], []⟩,
         ⟨"2024-02-01".toList, 10, [], []⟩]).map (fun row => row.2.1)).sum,
     ((monthly_summary [⟨"2024-01-15".toList, 200, [], []⟩, ⟨"2024-01-20".toList, -50, [], []⟩,
         ⟨"2024-02-01".toList, 10, [], []⟩]).map (fun row => row.2.2.1)).sum,
     ((monthly_summary [⟨"2024-01-15".toList, 200, [], []⟩, ⟨"2024-01-20".toList, -50, [], []⟩,
         ⟨"2024-02-01".toList, 10, [], []⟩]).map (fun row => row.2.2.2)).sum)
      = show_summary [⟨"2024-01-15".toList, 200, [], []⟩, ⟨"2024-01-20".toList, -50, [], []⟩,
         ⟨"2024-02-01".toList, 10, [], []⟩] :=
  (C19_monthly_partition [⟨"2024-01-15".toList, 200, [], []⟩, ⟨"2024-01-20".toList, -50, [], []⟩,
    ⟨"2024-02-01".toList, 10, [], []⟩]).2 (by decide)

end ExpenseTracker
